/-
  Verification of the circulation transaction engine of the library
  management system implemented in src/LMS.jsx.

  The engine is shallowly embedded: dates are integer millisecond
  timestamps (JavaScript `Date#getTime`, a `none` models a null date),
  monetary amounts are exact rationals (for the amounts the program
  produces, `daysLate * 0.50` and `toFixed(2)` are exact in IEEE
  doubles, so the rational model is faithful), and the Firestore
  document collections are lists of records keyed by `id`.
-/
import Mathlib

namespace LMS

/-- `FINE_RATE_PER_DAY = 0.50` (src/LMS.jsx line 16): fine per late day. -/
def FINE_RATE_PER_DAY : ℚ := 1 / 2

/-- `BORROW_DAYS = 7` (src/LMS.jsx line 17): loan period in days. -/
def BORROW_DAYS : Int := 7

/-- Milliseconds per day, the `1000 * 60 * 60 * 24` of `calculateFine`. -/
def msPerDay : Int := 1000 * 60 * 60 * 24

/-- Embedding of `calculateFine` (src/LMS.jsx lines 25-32).
    `!dueDate || !returnDate` is the null guard (a JS `Date` object is
    always truthy); `returnDate <= dueDate` compares the epoch-millisecond
    values; `Math.ceil(timeDiff / 86400000)` for a positive integer
    `timeDiff` is `(timeDiff + 86400000 - 1) / 86400000` in integer
    division; `parseFloat((daysLate * 0.50).toFixed(2))` is exactly
    `daysLate * (1/2)` because half-integers are exact in doubles. -/
def calculateFine (dueDate returnDate : Option Int) : ℚ :=
  match dueDate, returnDate with
  | some d, some r =>
    if r ≤ d then 0
    else
      let timeDiff := r - d
      let daysLate := (timeDiff + (msPerDay - 1)) / msPerDay
      (daysLate : ℚ) * FINE_RATE_PER_DAY
  | _, _ => 0

/-- Rounding to two decimal places, half up: the `round2` of the
    specification (spec section 4.1).  Used only to state the claimed
    contract of the fine calculator; `calculateFine` is proved to agree
    with it. -/
def round2 (q : ℚ) : ℚ := ((⌊q * 100 + 1 / 2⌋ : Int) : ℚ) / 100

/-- A book document: `totalCopies` and `availableCopies` are the
    inventory counters (src/LMS.jsx data model). -/
structure Book where
  id : String
  title : String
  author : String
  publisher : String
  category : String
  totalCopies : Int
  availableCopies : Int
deriving DecidableEq

/-- A user's role: the create-user form only produces Student or Staff. -/
inductive Role
  | Student
  | Staff
deriving DecidableEq

/-- A user document (`handleCreateUser`, src/LMS.jsx lines 351-368). -/
structure Usr where
  id : String
  name : String
  role : Role
  isDefaulter : Bool
deriving DecidableEq

/-- A transaction document as written by `handleBorrow` and updated by
    `handleReturn`.  Dates are epoch milliseconds; `returnDate = none`
    models the null of an open transaction. -/
structure Txn where
  id : String
  bookId : String
  userId : String
  borrowDate : Int
  dueDate : Int
  returnDate : Option Int
  fineAmount : ℚ
deriving DecidableEq

/-- The persisted state: the three Firestore collections.  A collection
    is a list of documents; Firestore keys documents uniquely, so an
    update targets the first (and in well-formed states only) record
    with the given id. -/
structure LibState where
  books : List Book
  users : List Usr
  transactions : List Txn
deriving DecidableEq

/-- Update the first record matching `p` (a keyed-document update). -/
def updateFirst (p : α → Bool) (f : α → α) : List α → List α
  | [] => []
  | a :: as => if p a then f a :: as else a :: updateFirst p f as

/-- Outcome of `handleBorrow`: `ok` is the success console message,
    `unavailable` the `"Book not available for borrow."` error report,
    `noSelection` the silent guard on an empty user or book selection. -/
inductive BorrowOutcome
  | ok
  | unavailable
  | noSelection
deriving DecidableEq

/-- The transaction record inserted by a successful borrow
    (src/LMS.jsx lines 480-500): `borrowDate = now`,
    `dueDate = now + BORROW_DAYS` days, `returnDate = null`,
    `fineAmount = 0`.  The source computes the due date with
    `setDate(getDate() + BORROW_DAYS)`, i.e. seven calendar days, which
    in uniform-day millisecond time is `7 * msPerDay`; `borrowDate` is a
    server timestamp for the same operation, modelled by the single
    clock value `now`. -/
def newBorrowTxn (userId bookId newId : String) (now : Int) : Txn :=
  { id := newId, bookId := bookId, userId := userId,
    borrowDate := now, dueDate := now + BORROW_DAYS * msPerDay,
    returnDate := none, fineAmount := 0 }

/-- Embedding of `handleBorrow` (src/LMS.jsx lines 470-509).  The
    availability guard `!selectedBook || selectedBook.availableCopies < 1`
    is checked against the caller's snapshot; the `runTransaction` body
    then decrements `availableCopies` (with no further check) and
    inserts the new transaction, atomically.  Here the snapshot is the
    current state (sequential semantics; the interleaved semantics is
    modelled separately below). -/
def handleBorrow (s : LibState) (userId bookId newId : String) (now : Int) :
    LibState × BorrowOutcome :=
  if userId = "" ∨ bookId = "" then (s, .noSelection)
  else
    match s.books.find? (fun b => b.id = bookId) with
    | none => (s, .unavailable)
    | some b =>
      if b.availableCopies < 1 then (s, .unavailable)
      else
        ({ s with
            books := updateFirst (fun bb => bb.id = bookId)
              (fun bb => { bb with availableCopies := bb.availableCopies - 1 }) s.books,
            transactions := s.transactions ++ [newBorrowTxn userId bookId newId now] },
          .ok)

/-- Outcome of `handleReturn`: `ok fine` is the success path (console
    message with the fine), `silentIgnore` the `if (txn.returnDate)
    return;` early exit, which reports nothing, and `failure` the catch
    branch (`"Transaction failed: "`), reached when the book document
    referenced by the transaction no longer exists. -/
inductive ReturnOutcome
  | ok (fine : ℚ)
  | silentIgnore
  | failure
deriving DecidableEq

/-- Embedding of `handleReturn` (src/LMS.jsx lines 511-539), applied to
    a transaction object `txn` taken from the caller's snapshot.  The
    fine is `calculateFine(txn.dueDate, now)`; the transaction body
    increments the book's `availableCopies` (unconditionally) and writes
    `returnDate` and `fineAmount` on the transaction document. -/
def closeTxn (now : Int) (fine : ℚ) (t : Txn) : Txn :=
  { t with returnDate := some now, fineAmount := fine }

def handleReturn (s : LibState) (txn : Txn) (now : Int) : LibState × ReturnOutcome :=
  if txn.returnDate.isSome then (s, .silentIgnore)
  else
    let fine := calculateFine (some txn.dueDate) (some now)
    match s.books.find? (fun b => b.id = txn.bookId) with
    | none => (s, .failure)
    | some _ =>
      ({ s with
          books := updateFirst (fun bb => bb.id = txn.bookId)
            (fun bb => { bb with availableCopies := bb.availableCopies + 1 }) s.books,
          transactions := updateFirst (fun t => t.id = txn.id)
            (closeTxn now fine) s.transactions },
        .ok fine)

/-- A circulation operation: a borrow request, or a return request on
    the transaction with the given id (the UI invokes `handleReturn` on
    a transaction object from the live snapshot; a return on an id that
    is not in the log is never invoked and leaves the state unchanged). -/
inductive Op
  | borrow (userId bookId newId : String) (now : Int)
  | ret (txnId : String) (now : Int)

/-- State transition of one circulation operation. -/
def applyOp (s : LibState) : Op → LibState
  | .borrow u k nid now => (handleBorrow s u k nid now).1
  | .ret tid now =>
    match s.transactions.find? (fun t => t.id = tid) with
    | none => s
    | some txn => (handleReturn s txn now).1

/-- State after a sequence of circulation operations. -/
def runOps (s : LibState) (ops : List Op) : LibState :=
  ops.foldl applyOp s

/-- Number of open transactions referencing the book with id `bookId`. -/
def openCount (txns : List Txn) (bookId : String) : Nat :=
  (txns.filter (fun t => t.bookId = bookId && t.returnDate.isNone)).length

/-- Invariant I1 of the specification:
    `0 ≤ availableCopies ≤ totalCopies` for every book. -/
def I1 (s : LibState) : Prop :=
  ∀ b ∈ s.books, 0 ≤ b.availableCopies ∧ b.availableCopies ≤ b.totalCopies

/-- Invariant I2 of the specification: for each book, the number of
    checked-out copies equals the number of open transactions for it. -/
def I2 (s : LibState) : Prop :=
  ∀ b ∈ s.books, b.totalCopies - b.availableCopies = (openCount s.transactions b.id : Int)

/-- Books are uniquely keyed, as Firestore documents are. -/
def UniqueBookIds (s : LibState) : Prop :=
  (s.books.map (fun b => b.id)).Nodup

instance : DecidablePred I1 := fun s => by unfold I1; infer_instance

instance : DecidablePred I2 := fun s => by unfold I2; infer_instance

instance : DecidablePred UniqueBookIds := fun s => by unfold UniqueBookIds; infer_instance

/-- Well-formedness used for invariant preservation: uniquely keyed
    books together with invariants I1 and I2. -/
def WF (s : LibState) : Prop := UniqueBookIds s ∧ I1 s ∧ I2 s

/-- A state satisfying I1 (but not I2): one book with a single copy, all
    copies on the shelf, yet an open transaction recorded against it. -/
def stateI1NotI2 : LibState :=
  { books := [⟨"b1", "T", "A", "P", "C", 1, 1⟩],
    users := [],
    transactions := [⟨"t1", "b1", "u1", 0, 604800000, none, 0⟩] }

/-- Phase of an in-flight `handleBorrow` call in the interleaved model:
    the call first runs its availability check (outside any transaction),
    then — if the check passed — the atomic `runTransaction` body. -/
inductive BorrowPhase
  | ready
  | checked
  | failed
  | committed
deriving DecidableEq

/-- An in-flight `handleBorrow` call with its parameters and phase. -/
structure BorrowCall where
  userId : String
  bookId : String
  newId : String
  now : Int
  phase : BorrowPhase
deriving DecidableEq

/-- The availability check of `handleBorrow` (src/LMS.jsx lines
    474-478), executed against the committed state visible when the
    check runs (the most favourable reading: the caller's snapshot is
    perfectly fresh).  It is not part of the write transaction. -/
def borrowCheckStep (s : LibState) (p : BorrowCall) : BorrowCall :=
  match s.books.find? (fun b => b.id = p.bookId) with
  | none => { p with phase := .failed }
  | some b =>
    if b.availableCopies < 1 then { p with phase := .failed }
    else { p with phase := .checked }

/-- The `runTransaction` body of `handleBorrow` (src/LMS.jsx lines
    485-501), one atomic step: it re-reads the book document and
    decrements `availableCopies` with no availability re-check, and
    inserts the transaction record. -/
def borrowCommitStep (s : LibState) (p : BorrowCall) : LibState × BorrowCall :=
  match s.books.find? (fun b => b.id = p.bookId) with
  | none => (s, { p with phase := .failed })
  | some _ =>
    ({ s with
        books := updateFirst (fun bb => bb.id = p.bookId)
          (fun bb => { bb with availableCopies := bb.availableCopies - 1 }) s.books,
        transactions := s.transactions ++ [newBorrowTxn p.userId p.bookId p.newId p.now] },
      { p with phase := .committed })

/-- Advance one in-flight borrow call by one atomic step. -/
def borrowStep (s : LibState) (p : BorrowCall) : LibState × BorrowCall :=
  match p.phase with
  | .ready => (s, borrowCheckStep s p)
  | .checked => borrowCommitStep s p
  | _ => (s, p)

/-- Execute an interleaving: each schedule entry names the in-flight
    call that performs its next atomic step. -/
def runSchedule (s : LibState) (ps : List BorrowCall) (sched : List Nat) :
    LibState × List BorrowCall :=
  sched.foldl
    (fun acc i =>
      match acc.2[i]? with
      | none => acc
      | some p =>
        let r := borrowStep acc.1 p
        (r.1, acc.2.set i r.2))
    (s, ps)

/-- A store with a single book that has exactly one available copy. -/
def oneCopyStore : LibState :=
  { books := [⟨"b1", "T", "A", "P", "C", 1, 1⟩], users := [], transactions := [] }

/-- Increment the counter for key `k` in an association list: the
    embedding of `counts[k] = (counts[k] || 0) + 1` on a JS object
    (insertion order preserved, first occurrence appends). -/
def bump (k : String) : List (String × Nat) → List (String × Nat)
  | [] => [(k, 1)]
  | (q, v) :: rest => if q = k then (q, v + 1) :: rest else (q, v) :: bump k rest

/-- Read the counter for key `k`; a missing key reads as 0 (in the
    source, `undefined` compared with `>=` yields false, and
    `counts[k] || 0` defaults to 0). -/
def alookup (k : String) : List (String × Nat) → Nat
  | [] => 0
  | (q, v) :: rest => if q = k then v else alookup k rest

/-- Fold a list into per-key counters: each element on which `key`
    yields a key bumps that key's counter. -/
def tally (key : α → Option String) (l : List α) : List (String × Nat) :=
  l.foldl (fun m a => match key a with | some k => bump k m | none => m) []

/-- `userLateCounts` (src/LMS.jsx lines 708-716): for each user id, the
    number of transactions with `fineAmount > 0` (the source does not
    test `returnDate`). -/
def userLateCounts (txns : List Txn) : List (String × Nat) :=
  tally (fun t => if 0 < t.fineAmount then some t.userId else none) txns

/-- `MIN_LATE_COUNT_FOR_DEFAULTER = 2` (src/LMS.jsx line 660). -/
def MIN_LATE_COUNT_FOR_DEFAULTER : Nat := 2

/-- `defaultersReport` (src/LMS.jsx lines 718-725): the users whose late
    count meets the threshold, annotated with that count and sorted
    descending by it. -/
def defaultersReport (users : List Usr) (txns : List Txn) : List (Usr × Nat) :=
  ((users.filter
      (fun u => decide (MIN_LATE_COUNT_FOR_DEFAULTER ≤ alookup u.id (userLateCounts txns)))).map
        (fun u => (u, alookup u.id (userLateCounts txns)))).mergeSort
    (fun a b => decide (b.2 ≤ a.2))

/-- `updateDefaulterStatus` (src/LMS.jsx lines 729-751): recompute the
    defaulter set and write `isDefaulter` for exactly the users whose
    stored flag differs; the surrounding guard skips the pass when the
    computed report is empty and no stored flag is set. -/
def updateDefaulterStatus (users : List Usr) (txns : List Txn) : List Usr :=
  let report := defaultersReport users txns
  let defaulterIds := report.map (fun p => p.1.id)
  if 0 < report.length ∨ users.any (fun u => u.isDefaulter) then
    users.map (fun u =>
      let isCur := defaulterIds.contains u.id
      if u.isDefaulter ≠ isCur then { u with isDefaulter := isCur } else u)
  else users

/-- The specification's defaulter criterion: the number of a user's
    closed transactions carrying a positive fine (spec section 4.4). -/
def closedFinedCount (txns : List Txn) (uid : String) : Nat :=
  (txns.filter
    (fun t => t.returnDate.isSome && decide (0 < t.fineAmount) && decide (t.userId = uid))).length

/-- Sort counter entries descending by count: the
    `.sort(([, a], [, b]) => b - a)` of `formatReport`
    (src/LMS.jsx line 678). -/
def sortByCountDesc (m : List (String × Nat)) : List (String × Nat) :=
  m.mergeSort (fun a b => decide (b.2 ≤ a.2))

/-- The three by-dimension usage views of `bookReports`. -/
structure DimReports where
  author : List (String × Nat)
  publisher : List (String × Nat)
  category : List (String × Nat)

/-- One dimension of `bookReports` (src/LMS.jsx lines 663-685): count
    transactions by an attribute of the referenced book, skipping
    transactions whose book is not found (`if (book)`), then sort
    descending by count. -/
def dimReport (books : List Book) (txns : List Txn) (key : Book → String) :
    List (String × Nat) :=
  sortByCountDesc
    (tally (fun t => (books.find? (fun b => b.id = t.bookId)).map key) txns)

/-- `bookReports`: the author / publisher / category usage views. -/
def bookReports (books : List Book) (txns : List Txn) : DimReports :=
  { author := dimReport books txns (fun b => b.author),
    publisher := dimReport books txns (fun b => b.publisher),
    category := dimReport books txns (fun b => b.category) }

/-- The number of transactions whose referenced book exists and carries
    the given attribute value — the grouping the by-dimension report is
    specified to compute. -/
def dimCount (books : List Book) (txns : List Txn) (key : Book → String) (k : String) : Nat :=
  (txns.filter (fun t => (books.find? (fun b => b.id = t.bookId)).map key = some k)).length

/-- One month's usage counters: `{ Student: _, Staff: _, Total: _ }`. -/
structure MonthUsage where
  student : Nat
  staff : Nat
  total : Nat
deriving DecidableEq

/-- `usage[monthYear][user.role] += 1; usage[monthYear].Total += 1`. -/
def roleBump (r : Role) (u : MonthUsage) : MonthUsage :=
  match r with
  | .Student => { u with student := u.student + 1, total := u.total + 1 }
  | .Staff => { u with staff := u.staff + 1, total := u.total + 1 }

/-- Bump a month entry in insertion order, creating it from
    `{ Student: 0, Staff: 0, Total: 0 }` when absent. -/
def mbump (k : String) (r : Role) : List (String × MonthUsage) → List (String × MonthUsage)
  | [] => [(k, roleBump r ⟨0, 0, 0⟩)]
  | (q, v) :: rest => if q = k then (q, roleBump r v) :: rest else (q, v) :: mbump k r rest

/-- Zero-padded two-digit rendering, `String(n).padStart(2, '0')`. -/
def pad2 (n : Nat) : String := (if n < 10 then "0" else "") ++ toString n

/-- `getMonthYear` (src/LMS.jsx line 659): the `"YYYY-MM"` key of a
    millisecond timestamp.  `getFullYear`/`getMonth` are evaluated here
    in a fixed UTC timezone (the source inherits the ambient timezone;
    the spec notes this ambiguity); year and month come from the
    standard civil-from-days conversion of the proleptic Gregorian
    calendar, with month `getMonth() + 1` in 1..12. -/
def getMonthYear (ms : Int) : String :=
  let days := Int.fdiv ms msPerDay
  let z := days + 719468
  let era := Int.fdiv z 146097
  let doe := (z - era * 146097).toNat
  let yoe := (doe - doe / 1460 + doe / 36524 - doe / 146096) / 365
  let doy := doe - (365 * yoe + yoe / 4 - yoe / 100)
  let mp := (5 * doy + 2) / 153
  let m := if mp < 10 then mp + 3 else mp - 9
  let y := (yoe : Int) + era * 400 + (if m ≤ 2 then 1 else 0)
  toString y ++ "-" ++ pad2 m

/-- The per-month accumulation of `monthlyUsageReport` (src/LMS.jsx
    lines 689-704): transactions whose user is missing are skipped
    (`if (!user) return;`). -/
def monthlyUsage (users : List Usr) (txns : List Txn) : List (String × MonthUsage) :=
  txns.foldl
    (fun m t =>
      match users.find? (fun u => u.id = t.userId) with
      | none => m
      | some u => mbump (getMonthYear t.borrowDate) u.role m)
    []

/-- `monthlyUsageReport`: the monthly usage entries sorted descending by
    month key (`([a], [b]) => b.localeCompare(a)`, lexicographic on the
    zero-padded keys). -/
def monthlyUsageReport (users : List Usr) (txns : List Txn) : List (String × MonthUsage) :=
  (monthlyUsage users txns).mergeSort (fun a b => decide (b.1 ≤ a.1))

/-- Invariant I4 of the specification: a positive fine implies a closed
    transaction. -/
def I4 (s : LibState) : Prop :=
  ∀ t ∈ s.transactions, 0 < t.fineAmount → t.returnDate ≠ none

/-- Ceiling of a rational quotient by a positive day length agrees with
    the integer-division formula used in the embedding of
    `calculateFine`. -/
theorem intCeil_div_msPerDay (t : Int) :
    ⌈(t : ℚ) / ((86400000 : Int) : ℚ)⌉ = (t + 86399999) / 86400000 := by
  have hc : (0 : ℚ) < ((86400000 : Int) : ℚ) := by norm_num
  apply le_antisymm
  · rw [Int.ceil_le, div_le_iff₀ hc]
    have h : t ≤ ((t + 86399999) / 86400000) * 86400000 := by omega
    exact_mod_cast h
  · have h2 : ((t + 86399999) / 86400000 - 1 : Int) * 86400000 < t := by omega
    have h3 : (((t + 86399999) / 86400000 - 1 : Int) : ℚ) < (t : ℚ) / ((86400000 : Int) : ℚ) := by
      rw [lt_div_iff₀ hc]
      exact_mod_cast h2
    have h4 := Int.lt_ceil.mpr h3
    omega

/-- Rounding to two decimals is the identity on integer multiples of one
    half. -/
theorem round2_half_int (k : Int) : round2 ((k : ℚ) * (1 / 2)) = (k : ℚ) * (1 / 2) := by
  unfold round2
  have h1 : ((k : ℚ) * (1 / 2)) * 100 + 1 / 2 = ((50 * k : Int) : ℚ) + 1 / 2 := by
    push_cast; ring
  rw [h1]
  have h2 : ⌊((50 * k : Int) : ℚ) + 1 / 2⌋ = 50 * k + ⌊(1 / 2 : ℚ)⌋ := Int.floor_int_add _ _
  have h3 : ⌊(1 / 2 : ℚ)⌋ = 0 := by
    rw [Int.floor_eq_iff]
    norm_num
  rw [h2, h3]
  push_cast
  ring

/-- On a strictly late return, `calculateFine` takes the ceiling-division
    branch. -/
theorem calculateFine_eq_of_lt (d r : Int) (h : d < r) :
    calculateFine (some d) (some r)
      = (((r - d + (msPerDay - 1)) / msPerDay : Int) : ℚ) * FINE_RATE_PER_DAY := by
  have hle : ¬ r ≤ d := not_le.mpr h
  simp [calculateFine, hle]

/-- Claim C5: for non-null dates, `calculateFine` returns exactly 0 when
    the return is not after the due instant, and otherwise returns
    `round2(ceil((returnDate - dueDate) / 1 day) * 0.50)`; in particular
    a return 10 days late yields 5.00, one day late yields 0.50, and one
    minute past due already counts as a full late day (0.50). -/
theorem calculateFine_matches_fine_contract (d r : Int) :
    (r ≤ d → calculateFine (some d) (some r) = 0) ∧
    (d < r → calculateFine (some d) (some r)
        = round2 (((⌈((r : ℚ) - (d : ℚ)) / ((msPerDay : Int) : ℚ)⌉ : Int) : ℚ) * FINE_RATE_PER_DAY)) ∧
    calculateFine (some 0) (some (10 * msPerDay)) = 5 ∧
    calculateFine (some 0) (some msPerDay) = 1 / 2 ∧
    calculateFine (some 0) (some 60000) = 1 / 2 := by
  refine ⟨fun h => by simp [calculateFine, h], fun h => ?_, ?_, ?_, ?_⟩
  · rw [calculateFine_eq_of_lt d r h]
    have hsub : ((r : ℚ) - (d : ℚ)) = (((r - d : Int)) : ℚ) := by push_cast; ring
    have hms : msPerDay = (86400000 : Int) := by decide
    rw [hsub, hms, intCeil_div_msPerDay]
    rw [show FINE_RATE_PER_DAY = 1 / 2 from rfl, round2_half_int]
    norm_num
  · rw [calculateFine_eq_of_lt 0 (10 * msPerDay) (by decide)]
    norm_num [msPerDay, FINE_RATE_PER_DAY]
  · rw [calculateFine_eq_of_lt 0 msPerDay (by decide)]
    norm_num [msPerDay, FINE_RATE_PER_DAY]
  · rw [calculateFine_eq_of_lt 0 60000 (by decide)]
    norm_num [msPerDay, FINE_RATE_PER_DAY]

/-- Witness for C5 at a concrete late return (due 0, returned 10 days
    later): both implications discharge and give the 5.00 fine. -/
theorem calculateFine_matches_fine_contract_witness :
    (0 : Int) < 10 * msPerDay ∧
      calculateFine (some 0) (some (10 * msPerDay))
        = round2 (((⌈(((10 * msPerDay : Int) : ℚ) - ((0 : Int) : ℚ)) / ((msPerDay : Int) : ℚ)⌉ : Int) : ℚ)
            * FINE_RATE_PER_DAY) :=
  ⟨by decide, (calculateFine_matches_fine_contract 0 (10 * msPerDay)).2.1 (by decide)⟩

/-- Claim C10: `calculateFine` is total over possibly-null inputs: a null
    due date or a null return date yields 0 rather than a failure. -/
theorem calculateFine_total_on_null :
    (∀ r : Option Int, calculateFine none r = 0) ∧
    (∀ d : Option Int, calculateFine d none = 0) := by
  constructor
  · intro r; cases r <;> rfl
  · intro d; cases d <;> rfl

/-- `updateFirst` rewrites exactly the first matching record. -/
theorem updateFirst_append_of_forall_neg {p : α → Bool} {f : α → α}
    (l₁ : List α) {l₂ : List α} {a₀ : α}
    (hneg : ∀ a ∈ l₁, ¬ p a = true) (hpos : p a₀ = true) :
    updateFirst p f (l₁ ++ a₀ :: l₂) = l₁ ++ f a₀ :: l₂ := by
  induction l₁ with
  | nil => simp [updateFirst, hpos]
  | cons a as ih =>
    have ha : ¬ p a = true := hneg a (by simp)
    simp only [List.cons_append, updateFirst, if_neg ha, List.cons.injEq, true_and]
    exact ih fun x hx => hneg x (by simp [hx])

/-- A successful `find?` splits the list at the first match. -/
theorem find?_decomp {p : α → Bool} {l : List α} {a₀ : α} (h : l.find? p = some a₀) :
    ∃ l₁ l₂, l = l₁ ++ a₀ :: l₂ ∧ (∀ a ∈ l₁, ¬ p a = true) ∧ p a₀ = true := by
  rw [List.find?_eq_some] at h
  obtain ⟨hp, l₁, l₂, rfl, hneg⟩ := h
  exact ⟨l₁, l₂, rfl, fun a ha => by simpa using hneg a ha, hp⟩

/-- `find?` over a list whose prefix is all-negative finds the head of
    the suffix. -/
theorem find?_append_of_forall_neg {p : α → Bool}
    (l₁ : List α) {l₂ : List α} {x : α}
    (hneg : ∀ a ∈ l₁, ¬ p a = true) (hx : p x = true) :
    (l₁ ++ x :: l₂).find? p = some x := by
  induction l₁ with
  | nil => simpa using List.find?_cons_of_pos _ hx
  | cons a as ih =>
    rw [List.cons_append, List.find?_cons_of_neg _ (hneg a (by simp))]
    exact ih fun y hy => hneg y (by simp [hy])

/-- After updating the first record matching `p`, `find?` returns the
    updated record, provided the update preserves the predicate. -/
theorem find?_updateFirst {p : α → Bool} {f : α → α} {l : List α} {a₀ : α}
    (h : l.find? p = some a₀) (hf : p (f a₀) = true) :
    (updateFirst p f l).find? p = some (f a₀) := by
  obtain ⟨l₁, l₂, rfl, hneg, hpos⟩ := find?_decomp h
  rw [updateFirst_append_of_forall_neg l₁ hneg hpos]
  exact find?_append_of_forall_neg l₁ hneg hf

theorem openCount_nil (k : String) : openCount [] k = 0 := rfl

theorem openCount_append (ts us : List Txn) (k : String) :
    openCount (ts ++ us) k = openCount ts k + openCount us k := by
  simp [openCount, List.filter_append]

theorem openCount_cons (t : Txn) (ts : List Txn) (k : String) :
    openCount (t :: ts) k
      = (if t.bookId = k ∧ t.returnDate = none then 1 else 0) + openCount ts k := by
  by_cases h : t.bookId = k ∧ t.returnDate = none
  · have hb : (decide (t.bookId = k) && t.returnDate.isNone) = true := by
      simp [h.1, h.2]
    simp [openCount, List.filter_cons, hb, h, Nat.add_comm]
  · have hb : (decide (t.bookId = k) && t.returnDate.isNone) = false := by
      rcases not_and_or.mp h with hk | hr
      · simp [hk]
      · have hn : t.returnDate.isNone = false := by
          cases hcase : t.returnDate with
          | none => exact absurd hcase hr
          | some v => rfl
        simp [hn]
    simp [openCount, List.filter_cons, hb, h]

/-- An open transaction for a book witnesses a positive open count. -/
theorem openCount_pos {t : Txn} {ts : List Txn} {k : String}
    (ht : t ∈ ts) (hb : t.bookId = k) (ho : t.returnDate = none) :
    1 ≤ openCount ts k := by
  have : t ∈ ts.filter (fun t => t.bookId = k && t.returnDate.isNone) :=
    List.mem_filter.mpr ⟨ht, by simp [hb, ho]⟩
  exact List.length_pos_of_mem this

/-- Claim C4: when the availability check sees `availableCopies < 1`,
    `handleBorrow` reports the book unavailable and leaves the state
    untouched: no transaction record is created and no counter is
    modified. -/
theorem borrow_unavailable_no_mutation (s : LibState) (u k nid : String) (now : Int) (b : Book)
    (hu : ¬ u = "") (hk : ¬ k = "")
    (hfind : s.books.find? (fun bb => bb.id = k) = some b)
    (hav : b.availableCopies < 1) :
    handleBorrow s u k nid now = (s, BorrowOutcome.unavailable) := by
  simp [handleBorrow, hu, hk, hfind, hav]

/-- Witness for C4: a concrete store with a fully checked-out book. -/
theorem borrow_unavailable_no_mutation_witness :
    (let s : LibState :=
      { books := [⟨"b1", "T", "A", "P", "C", 2, 0⟩], users := [], transactions := [] };
     handleBorrow s "u1" "b1" "t1" 0 = (s, BorrowOutcome.unavailable)) :=
  borrow_unavailable_no_mutation _ "u1" "b1" "t1" 0 ⟨"b1", "T", "A", "P", "C", 2, 0⟩
    (by decide) (by decide) (by decide) (by decide)

/-- Claim C8: a successful borrow decrements the booked copy count by
    exactly one and appends a transaction whose due date is its borrow
    date plus exactly seven days, with a null return date and a zero
    fine. -/
theorem borrow_success_shape (s : LibState) (u k nid : String) (now : Int) (b : Book)
    (hu : ¬ u = "") (hk : ¬ k = "")
    (hfind : s.books.find? (fun bb => bb.id = k) = some b)
    (hav : 1 ≤ b.availableCopies) :
    (handleBorrow s u k nid now).2 = BorrowOutcome.ok ∧
    (handleBorrow s u k nid now).1.transactions
      = s.transactions ++ [newBorrowTxn u k nid now] ∧
    (newBorrowTxn u k nid now).borrowDate = now ∧
    (newBorrowTxn u k nid now).dueDate = (newBorrowTxn u k nid now).borrowDate + 7 * msPerDay ∧
    (newBorrowTxn u k nid now).returnDate = none ∧
    (newBorrowTxn u k nid now).fineAmount = 0 ∧
    (handleBorrow s u k nid now).1.books.find? (fun bb => bb.id = k)
      = some { b with availableCopies := b.availableCopies - 1 } := by
  have hav' : ¬ b.availableCopies < 1 := not_lt.mpr hav
  refine ⟨?_, ?_, rfl, ?_, rfl, rfl, ?_⟩
  · simp [handleBorrow, hu, hk, hfind, hav']
  · simp [handleBorrow, hu, hk, hfind, hav']
  · simp [newBorrowTxn, BORROW_DAYS]
  · have hid : decide (b.id = k) = true := by
      have h4 := List.find?_some hfind
      simpa using h4
    have hstate : (handleBorrow s u k nid now).1.books
        = updateFirst (fun bb => bb.id = k)
            (fun bb => { bb with availableCopies := bb.availableCopies - 1 }) s.books := by
      simp [handleBorrow, hu, hk, hfind, hav']
    rw [hstate]
    exact find?_updateFirst hfind hid

/-- In a uniquely-keyed book list split at a match, the suffix contains
    no second record with the matched id. -/
theorem suffix_ids_ne {l₁ l₂ : List Book} {b₀ : Book}
    (hnd : ((l₁ ++ b₀ :: l₂).map (fun b => b.id)).Nodup) :
    ∀ b ∈ l₂, b.id ≠ b₀.id := by
  intro b hb heq
  rw [List.map_append, List.map_cons] at hnd
  have h7 := hnd.of_append_right
  exact (List.nodup_cons.mp h7).1 (heq ▸ List.mem_map_of_mem _ hb)

/-- A borrow operation preserves well-formedness. -/
theorem handleBorrow_preserves_WF (s : LibState) (u k nid : String) (now : Int)
    (hwf : WF s) : WF (handleBorrow s u k nid now).1 := by
  obtain ⟨hnd, h1, h2⟩ := hwf
  by_cases hg : u = "" ∨ k = ""
  · simpa [handleBorrow, hg] using ⟨hnd, h1, h2⟩
  · cases hfind : s.books.find? (fun b => b.id = k) with
    | none => simpa [handleBorrow, hg, hfind] using ⟨hnd, h1, h2⟩
    | some b =>
      by_cases hav : b.availableCopies < 1
      · simpa [handleBorrow, hg, hfind, hav] using ⟨hnd, h1, h2⟩
      · have hstate : (handleBorrow s u k nid now).1
            = { s with
                books := updateFirst (fun bb => bb.id = k)
                  (fun bb => { bb with availableCopies := bb.availableCopies - 1 }) s.books,
                transactions := s.transactions ++ [newBorrowTxn u k nid now] } := by
          simp [handleBorrow, hg, hfind, hav]
        obtain ⟨l₁, l₂, hbooks, hnegB, hposB⟩ := find?_decomp hfind
        have hbid : b.id = k := by simpa using hposB
        have hupd : updateFirst (fun bb => bb.id = k)
            (fun bb => { bb with availableCopies := bb.availableCopies - 1 }) s.books
            = l₁ ++ { b with availableCopies := b.availableCopies - 1 } :: l₂ := by
          rw [hbooks]
          exact updateFirst_append_of_forall_neg l₁ hnegB hposB
        have hB : (handleBorrow s u k nid now).1.books
            = l₁ ++ { b with availableCopies := b.availableCopies - 1 } :: l₂ := by
          rw [hstate]; exact hupd
        have hT : (handleBorrow s u k nid now).1.transactions
            = s.transactions ++ [newBorrowTxn u k nid now] := by
          rw [hstate]
        have hnd' : ((l₁ ++ b :: l₂).map (fun bb => bb.id)).Nodup := by
          unfold UniqueBookIds at hnd
          rwa [hbooks] at hnd
        have h1' : ∀ bb ∈ l₁ ++ b :: l₂,
            0 ≤ bb.availableCopies ∧ bb.availableCopies ≤ bb.totalCopies :=
          fun bb hbb => h1 bb (hbooks ▸ hbb)
        have h2' : ∀ bb ∈ l₁ ++ b :: l₂,
            bb.totalCopies - bb.availableCopies = (openCount s.transactions bb.id : Int) :=
          fun bb hbb => h2 bb (hbooks ▸ hbb)
        have hl1 : ∀ bb ∈ l₁, bb.id ≠ k := by
          intro bb hb
          simpa using hnegB bb hb
        have hl2 : ∀ bb ∈ l₂, bb.id ≠ k := by
          intro bb hb
          exact fun heq => suffix_ids_ne hnd' bb hb (heq.trans hbid.symm)
        have hcount : ∀ id : String,
            openCount (s.transactions ++ [newBorrowTxn u k nid now]) id
              = openCount s.transactions id + (if k = id then 1 else 0) := by
          intro id
          rw [openCount_append]
          have hone : openCount [newBorrowTxn u k nid now] id
              = if k = id then 1 else 0 := by
            rw [show [newBorrowTxn u k nid now]
                  = newBorrowTxn u k nid now :: [] from rfl, openCount_cons, openCount_nil]
            simp [newBorrowTxn]
          rw [hone]
        refine ⟨?_, ?_, ?_⟩
        · unfold UniqueBookIds
          rw [hB]
          simp only [List.map_append, List.map_cons]
          simpa using hnd'
        · intro bb hbb
          rw [hB] at hbb
          rcases List.mem_append.mp hbb with hm | hm
          · exact h1' bb (List.mem_append_left _ hm)
          · rcases List.mem_cons.mp hm with rfl | hm
            · have hb1 := h1' b (List.mem_append_right _ (List.mem_cons_self _ _))
              refine ⟨show (0 : Int) ≤ b.availableCopies - 1 from by omega,
                show b.availableCopies - 1 ≤ b.totalCopies from by omega⟩
            · exact h1' bb (List.mem_append_right _ (List.mem_cons_of_mem _ hm))
        · intro bb hbb
          rw [hB] at hbb
          rw [hT, hcount bb.id]
          rcases List.mem_append.mp hbb with hm | hm
          · rw [if_neg (fun heq => hl1 bb hm heq.symm)]
            simpa using h2' bb (List.mem_append_left _ hm)
          · rcases List.mem_cons.mp hm with rfl | hm
            · have hb2 := h2' b (List.mem_append_right _ (List.mem_cons_self _ _))
              have hkid : k = ({ b with availableCopies := b.availableCopies - 1 } : Book).id := by
                simpa using hbid.symm
              rw [if_pos hkid]
              have hopen : ({ b with availableCopies := b.availableCopies - 1 } : Book).id
                  = b.id := rfl
              rw [hopen]
              have hgoal : b.totalCopies - (b.availableCopies - 1)
                  = ((openCount s.transactions b.id + 1 : Nat) : Int) := by
                push_cast
                omega
              exact hgoal
            · rw [if_neg (fun heq => hl2 bb hm heq.symm)]
              simpa using h2' bb (List.mem_append_right _ (List.mem_cons_of_mem _ hm))

/-- Count bookkeeping for closing the first transaction with a given id:
    the open count for the closed transaction's book drops by one, other
    books are unaffected. -/
theorem openCount_close_first {txns : List Txn} {tid : String} {t₀ : Txn}
    (hfind : txns.find? (fun t => t.id = tid) = some t₀)
    (hopen : t₀.returnDate = none) (now : Int) (fine : ℚ) (id : String) :
    openCount (updateFirst (fun t => t.id = tid) (closeTxn now fine) txns) id
      + (if t₀.bookId = id then 1 else 0)
      = openCount txns id := by
  obtain ⟨m₁, m₂, htxns, hnegT, hposT⟩ := find?_decomp hfind
  rw [htxns, updateFirst_append_of_forall_neg m₁ hnegT hposT]
  rw [openCount_append, openCount_append, openCount_cons, openCount_cons]
  have hc1 : (if (closeTxn now fine t₀).bookId = id ∧ (closeTxn now fine t₀).returnDate = none
      then 1 else 0) = 0 := by
    simp [closeTxn]
  have hc2 : (if t₀.bookId = id ∧ t₀.returnDate = none then 1 else 0)
      = (if t₀.bookId = id then 1 else 0) := by
    simp [hopen]
  rw [hc1, hc2]
  omega

/-- A return operation preserves well-formedness, when invoked on the
    transaction object that the live snapshot presents for its id. -/
theorem handleReturn_preserves_WF (s : LibState) (txn : Txn) (now : Int)
    (hfindT : s.transactions.find? (fun t => t.id = txn.id) = some txn)
    (hwf : WF s) : WF (handleReturn s txn now).1 := by
  obtain ⟨hnd, h1, h2⟩ := hwf
  have hmem : txn ∈ s.transactions := List.mem_of_find?_eq_some hfindT
  by_cases hrd : txn.returnDate.isSome
  · simpa [handleReturn, hrd] using ⟨hnd, h1, h2⟩
  · have hopen : txn.returnDate = none := by
      cases hcase : txn.returnDate with
      | none => rfl
      | some v => exact absurd (by simp [hcase]) hrd
    cases hfb : s.books.find? (fun b => b.id = txn.bookId) with
    | none => simpa [handleReturn, hrd, hfb] using ⟨hnd, h1, h2⟩
    | some b =>
      have hstate : (handleReturn s txn now).1
          = { s with
              books := updateFirst (fun bb => bb.id = txn.bookId)
                (fun bb => { bb with availableCopies := bb.availableCopies + 1 }) s.books,
              transactions := updateFirst (fun t => t.id = txn.id)
                (closeTxn now (calculateFine (some txn.dueDate) (some now)))
                s.transactions } := by
        simp [handleReturn, hrd, hfb]
      obtain ⟨l₁, l₂, hbooks, hnegB, hposB⟩ := find?_decomp hfb
      have hbid : b.id = txn.bookId := by simpa using hposB
      have hupd : updateFirst (fun bb => bb.id = txn.bookId)
          (fun bb => { bb with availableCopies := bb.availableCopies + 1 }) s.books
          = l₁ ++ { b with availableCopies := b.availableCopies + 1 } :: l₂ := by
        rw [hbooks]
        exact updateFirst_append_of_forall_neg l₁ hnegB hposB
      have hB : (handleReturn s txn now).1.books
          = l₁ ++ { b with availableCopies := b.availableCopies + 1 } :: l₂ := by
        rw [hstate]; exact hupd
      have hT : (handleReturn s txn now).1.transactions
          = updateFirst (fun t => t.id = txn.id)
              (closeTxn now (calculateFine (some txn.dueDate) (some now)))
              s.transactions := by
        rw [hstate]
      have hnd' : ((l₁ ++ b :: l₂).map (fun bb => bb.id)).Nodup := by
        unfold UniqueBookIds at hnd
        rwa [hbooks] at hnd
      have h1' : ∀ bb ∈ l₁ ++ b :: l₂,
          0 ≤ bb.availableCopies ∧ bb.availableCopies ≤ bb.totalCopies :=
        fun bb hbb => h1 bb (hbooks ▸ hbb)
      have h2' : ∀ bb ∈ l₁ ++ b :: l₂,
          bb.totalCopies - bb.availableCopies = (openCount s.transactions bb.id : Int) :=
        fun bb hbb => h2 bb (hbooks ▸ hbb)
      have hl1 : ∀ bb ∈ l₁, bb.id ≠ txn.bookId := by
        intro bb hb
        simpa using hnegB bb hb
      have hl2 : ∀ bb ∈ l₂, bb.id ≠ txn.bookId := by
        intro bb hb
        exact fun heq => suffix_ids_ne hnd' bb hb (heq.trans hbid.symm)
      have hcount := fun id =>
        openCount_close_first hfindT hopen now (calculateFine (some txn.dueDate) (some now)) id
      refine ⟨?_, ?_, ?_⟩
      · unfold UniqueBookIds
        rw [hB]
        simp only [List.map_append, List.map_cons]
        simpa using hnd'
      · intro bb hbb
        rw [hB] at hbb
        rcases List.mem_append.mp hbb with hm | hm
        · exact h1' bb (List.mem_append_left _ hm)
        · rcases List.mem_cons.mp hm with rfl | hm
          · have hb1 := h1' b (List.mem_append_right _ (List.mem_cons_self _ _))
            have hb2 := h2' b (List.mem_append_right _ (List.mem_cons_self _ _))
            have hoc : 1 ≤ openCount s.transactions b.id :=
              openCount_pos hmem hbid.symm hopen
            refine ⟨show (0 : Int) ≤ b.availableCopies + 1 from by omega,
              show b.availableCopies + 1 ≤ b.totalCopies from by omega⟩
          · exact h1' bb (List.mem_append_right _ (List.mem_cons_of_mem _ hm))
      · intro bb hbb
        rw [hB] at hbb
        rw [hT]
        rcases List.mem_append.mp hbb with hm | hm
        · have hc := hcount bb.id
          rw [if_neg (fun heq => hl1 bb hm heq.symm)] at hc
          have h9 := h2' bb (List.mem_append_left _ hm)
          omega
        · rcases List.mem_cons.mp hm with rfl | hm
          · have hb2 := h2' b (List.mem_append_right _ (List.mem_cons_self _ _))
            have hc := hcount (({ b with availableCopies := b.availableCopies + 1 } : Book).id)
            have hidr : ({ b with availableCopies := b.availableCopies + 1 } : Book).id
                = b.id := rfl
            rw [hidr] at hc
            rw [if_pos hbid.symm] at hc
            have hgoal : b.totalCopies - (b.availableCopies + 1)
                = ((openCount (updateFirst (fun t => t.id = txn.id)
                    (closeTxn now (calculateFine (some txn.dueDate) (some now)))
                    s.transactions) b.id : Nat) : Int) := by
              omega
            exact hgoal
          · have hc := hcount bb.id
            rw [if_neg (fun heq => hl2 bb hm heq.symm)] at hc
            have h9 := h2' bb (List.mem_append_right _ (List.mem_cons_of_mem _ hm))
            omega

/-- Any single circulation operation preserves well-formedness. -/
theorem applyOp_preserves_WF (s : LibState) (op : Op) (hwf : WF s) : WF (applyOp s op) := by
  cases op with
  | borrow u k nid now => exact handleBorrow_preserves_WF s u k nid now hwf
  | ret tid now =>
    cases hfind : s.transactions.find? (fun t => t.id = tid) with
    | none => simpa [applyOp, hfind] using hwf
    | some txn =>
      have htid : txn.id = tid := by simpa using List.find?_some hfind
      have hfind' : s.transactions.find? (fun t => t.id = txn.id) = some txn := by
        rw [htid]; exact hfind
      have hgoal : applyOp s (.ret tid now) = (handleReturn s txn now).1 := by
        simp [applyOp, hfind]
      rw [hgoal]
      exact handleReturn_preserves_WF s txn now hfind' hwf

/-- Any sequence of circulation operations preserves well-formedness. -/
theorem runOps_preserves_WF (ops : List Op) (s : LibState) (hwf : WF s) :
    WF (runOps s ops) := by
  induction ops generalizing s with
  | nil => exact hwf
  | cons op ops ih => exact ih (applyOp s op) (applyOp_preserves_WF s op hwf)

/-- Claim C2 (amended): starting from a uniquely-keyed state satisfying
    both I1 and I2, every sequence of Borrow/Return operations preserves
    `0 ≤ availableCopies ≤ totalCopies` for every book (and I2 with it).
    I2 in the precondition is necessary: from a state satisfying I1
    alone, a Return can push `availableCopies` above `totalCopies` (see
    the accompanying counterexample). -/
theorem circulation_sequences_preserve_invariants (s : LibState) (ops : List Op)
    (hnd : UniqueBookIds s) (h1 : I1 s) (h2 : I2 s) :
    I1 (runOps s ops) ∧ I2 (runOps s ops) := by
  have h := runOps_preserves_WF ops s ⟨hnd, h1, h2⟩
  exact ⟨h.2.1, h.2.2⟩

/-- Counterexample to claim C2 as stated: `stateI1NotI2` satisfies I1,
    yet after the single Return operation on its open transaction, I1 is
    violated (`availableCopies = 2 > totalCopies = 1`): preservation
    from I1 alone fails, the operation sequence semantics being exactly
    `runOps`. -/
theorem return_breaks_I1_without_I2 :
    I1 stateI1NotI2 ∧ ¬ I1 (runOps stateI1NotI2 [Op.ret "t1" 0]) := by
  constructor
  · decide
  · decide

/-- Witness for C2 (amended), on a concrete well-formed store and a
    concrete borrow-then-return sequence. -/
theorem circulation_sequences_preserve_invariants_witness :
    I1 (runOps
        { books := [⟨"b1", "T", "A", "P", "C", 2, 1⟩],
          users := [],
          transactions := [⟨"t1", "b1", "u1", 0, 604800000, none, 0⟩] }
        [Op.borrow "u1" "b1" "t2" 0, Op.ret "t1" 5]) ∧
    I2 (runOps
        { books := [⟨"b1", "T", "A", "P", "C", 2, 1⟩],
          users := [],
          transactions := [⟨"t1", "b1", "u1", 0, 604800000, none, 0⟩] }
        [Op.borrow "u1" "b1" "t2" 0, Op.ret "t1" 5]) :=
  circulation_sequences_preserve_invariants _ _ (by decide) (by decide) (by decide)

/-- The core success shape of a return: outcome, updated transaction,
    and incremented book counter. -/
theorem handleReturn_success_shape (s : LibState) (txn : Txn) (b : Book) (now : Int)
    (hopen : txn.returnDate = none)
    (hfindT : s.transactions.find? (fun t => t.id = txn.id) = some txn)
    (hfb : s.books.find? (fun bb => bb.id = txn.bookId) = some b) :
    (handleReturn s txn now).2
      = ReturnOutcome.ok (calculateFine (some txn.dueDate) (some now)) ∧
    ((handleReturn s txn now).1.transactions.find? (fun t => t.id = txn.id)
      = some (closeTxn now (calculateFine (some txn.dueDate) (some now)) txn)) ∧
    ((handleReturn s txn now).1.books.find? (fun bb => bb.id = txn.bookId)
      = some { b with availableCopies := b.availableCopies + 1 }) := by
  have hrd : txn.returnDate.isSome = false := by simp [hopen]
  refine ⟨?_, ?_, ?_⟩
  · simp [handleReturn, hrd, hfb]
  · have hT : (handleReturn s txn now).1.transactions
        = updateFirst (fun t => t.id = txn.id)
            (closeTxn now (calculateFine (some txn.dueDate) (some now)))
            s.transactions := by
      simp [handleReturn, hrd, hfb]
    rw [hT]
    exact find?_updateFirst hfindT (by simp [closeTxn])
  · have hB : (handleReturn s txn now).1.books
        = updateFirst (fun bb => bb.id = txn.bookId)
            (fun bb => { bb with availableCopies := bb.availableCopies + 1 }) s.books := by
      simp [handleReturn, hrd, hfb]
    rw [hB]
    have hid : decide (b.id = txn.bookId) = true := by
      simpa using List.find?_some hfb
    exact find?_updateFirst hfb hid

/-- Claim C3 (amended): invoking Return on an already-closed transaction
    is a silent no-op — the state is unchanged and no error of any kind
    is surfaced (the source exits through `if (txn.returnDate) return;`
    before reaching the transaction, and constructs no AlreadyReturned
    value).  Hence calling Return twice on the same open transaction
    produces exactly one state change: the first call records the fine
    and increments the book's `availableCopies` once; the second call,
    on the closed record the snapshot now presents, changes nothing, and
    the originally recorded fine stays in place. -/
theorem return_twice_single_state_change (s : LibState) (txn : Txn) (b : Book)
    (now1 now2 : Int)
    (hopen : txn.returnDate = none)
    (hfindT : s.transactions.find? (fun t => t.id = txn.id) = some txn)
    (hfb : s.books.find? (fun bb => bb.id = txn.bookId) = some b) :
    (handleReturn s txn now1).2
      = ReturnOutcome.ok (calculateFine (some txn.dueDate) (some now1)) ∧
    ((handleReturn s txn now1).1.transactions.find? (fun t => t.id = txn.id)
      = some (closeTxn now1 (calculateFine (some txn.dueDate) (some now1)) txn)) ∧
    ((handleReturn s txn now1).1.books.find? (fun bb => bb.id = txn.bookId)
      = some { b with availableCopies := b.availableCopies + 1 }) ∧
    handleReturn (handleReturn s txn now1).1
        (closeTxn now1 (calculateFine (some txn.dueDate) (some now1)) txn) now2
      = ((handleReturn s txn now1).1, ReturnOutcome.silentIgnore) := by
  obtain ⟨hout, hfound, hbook⟩ := handleReturn_success_shape s txn b now1 hopen hfindT hfb
  refine ⟨hout, hfound, hbook, ?_⟩
  simp [handleReturn, closeTxn]

/-- Counterexample to claim C3 as stated: on a transaction whose
    `returnDate` is already non-null, Return does change no state, but
    it does not fail with an AlreadyReturned error — it reports nothing
    at all (`silentIgnore`, the bare `return;`), distinct from the only
    error-reporting outcome of the function. -/
theorem return_on_closed_is_silent_not_error :
    handleReturn
        { books := [⟨"b1", "T", "A", "P", "C", 1, 1⟩],
          users := [],
          transactions := [⟨"t1", "b1", "u1", 0, 604800000, some 0, 0⟩] }
        ⟨"t1", "b1", "u1", 0, 604800000, some 0, 0⟩ 5
      = ({ books := [⟨"b1", "T", "A", "P", "C", 1, 1⟩],
           users := [],
           transactions := [⟨"t1", "b1", "u1", 0, 604800000, some 0, 0⟩] },
         ReturnOutcome.silentIgnore) ∧
    ReturnOutcome.silentIgnore ≠ ReturnOutcome.failure := by
  exact ⟨rfl, by decide⟩

/-- Witness for C3 (amended): a concrete on-time return invoked twice. -/
theorem return_twice_single_state_change_witness :
    (handleReturn stateI1NotI2 ⟨"t1", "b1", "u1", 0, 604800000, none, 0⟩ 0).2
      = ReturnOutcome.ok
          (calculateFine (some 604800000) (some 0)) ∧
    handleReturn (handleReturn stateI1NotI2 ⟨"t1", "b1", "u1", 0, 604800000, none, 0⟩ 0).1
        (closeTxn 0 (calculateFine (some 604800000) (some 0))
          ⟨"t1", "b1", "u1", 0, 604800000, none, 0⟩) 5
      = ((handleReturn stateI1NotI2 ⟨"t1", "b1", "u1", 0, 604800000, none, 0⟩ 0).1,
         ReturnOutcome.silentIgnore) := by
  have h := return_twice_single_state_change stateI1NotI2
    ⟨"t1", "b1", "u1", 0, 604800000, none, 0⟩ ⟨"b1", "T", "A", "P", "C", 1, 1⟩ 0 5
    (by decide) (by decide) (by decide)
  exact ⟨h.1, h.2.2.2⟩

/-- Claim C6 (amended): the release performed during Return never fails
    with an InvariantViolation: it increments `availableCopies` by one
    unconditionally, even when the result exceeds `totalCopies` — the
    source contains no such defensive check. -/
theorem release_never_fails_on_exceeding_total (s : LibState) (txn : Txn) (b : Book)
    (now : Int)
    (hopen : txn.returnDate = none)
    (hfindT : s.transactions.find? (fun t => t.id = txn.id) = some txn)
    (hfb : s.books.find? (fun bb => bb.id = txn.bookId) = some b)
    (hfull : b.totalCopies ≤ b.availableCopies) :
    (handleReturn s txn now).2
      = ReturnOutcome.ok (calculateFine (some txn.dueDate) (some now)) ∧
    ((handleReturn s txn now).1.books.find? (fun bb => bb.id = txn.bookId)
      = some { b with availableCopies := b.availableCopies + 1 }) ∧
    b.totalCopies < b.availableCopies + 1 := by
  obtain ⟨hout, _, hbook⟩ := handleReturn_success_shape s txn b now hopen hfindT hfb
  exact ⟨hout, hbook, by omega⟩

/-- Counterexample to claim C6 as stated: with `availableCopies =
    totalCopies = 1` and an open transaction on the book, Return
    succeeds and writes `availableCopies = 2 > totalCopies = 1`; no
    failure of any kind is raised. -/
theorem release_writes_beyond_total_without_error :
    ((handleReturn stateI1NotI2 ⟨"t1", "b1", "u1", 0, 604800000, none, 0⟩ 0).2
      = ReturnOutcome.ok 0) ∧
    ((handleReturn stateI1NotI2 ⟨"t1", "b1", "u1", 0, 604800000, none, 0⟩ 0).1.books
      = [⟨"b1", "T", "A", "P", "C", 1, 2⟩]) := by
  exact ⟨by decide, by decide⟩

/-- Witness for C6 (amended): the same concrete full-shelf store. -/
theorem release_never_fails_on_exceeding_total_witness :
    (handleReturn stateI1NotI2 ⟨"t1", "b1", "u1", 0, 604800000, none, 0⟩ 0).2
      = ReturnOutcome.ok (calculateFine (some 604800000) (some 0)) ∧
    ((handleReturn stateI1NotI2 ⟨"t1", "b1", "u1", 0, 604800000, none, 0⟩ 0).1.books.find?
        (fun bb => bb.id = "b1")
      = some ⟨"b1", "T", "A", "P", "C", 1, 2⟩) := by
  have h := release_never_fails_on_exceeding_total stateI1NotI2
    ⟨"t1", "b1", "u1", 0, 604800000, none, 0⟩ ⟨"b1", "T", "A", "P", "C", 1, 1⟩ 0
    (by decide) (by decide) (by decide) (by decide)
  exact ⟨h.1, h.2.1⟩

/-- Witness for C8: a concrete successful borrow. -/
theorem borrow_success_shape_witness :
    ((handleBorrow ⟨[⟨"b1", "T", "A", "P", "C", 2, 2⟩], [], []⟩ "u1" "b1" "t1" 0).2
        = BorrowOutcome.ok) ∧
    ((handleBorrow ⟨[⟨"b1", "T", "A", "P", "C", 2, 2⟩], [], []⟩ "u1" "b1" "t1" 0).1.books.find?
        (fun bb => bb.id = "b1") = some ⟨"b1", "T", "A", "P", "C", 2, 1⟩) := by
  have h := borrow_success_shape ⟨[⟨"b1", "T", "A", "P", "C", 2, 2⟩], [], []⟩
    "u1" "b1" "t1" 0 ⟨"b1", "T", "A", "P", "C", 2, 2⟩ (by decide) (by decide) (by decide)
    (by decide)
  exact ⟨h.1, h.2.2.2.2.2.2⟩

/-- Claim C1 fails on the code: two concurrent Borrow calls against a
    book with exactly one available copy, interleaved so that both
    availability checks run before either commit (schedule check₁,
    check₂, commit₁, commit₂), BOTH commit successfully and
    `availableCopies` ends at -1 — an oversell below zero.  The
    availability check happens outside the `runTransaction` body, which
    decrements without re-checking, so the read-check-decrement sequence
    is not an atomic unit. -/
theorem concurrent_borrows_oversell_one_copy :
    ((runSchedule oneCopyStore
        [⟨"u1", "b1", "t1", 0, BorrowPhase.ready⟩, ⟨"u2", "b1", "t2", 0, BorrowPhase.ready⟩]
        [0, 1, 0, 1]).2.map (fun p => p.phase)
      = [BorrowPhase.committed, BorrowPhase.committed]) ∧
    ((runSchedule oneCopyStore
        [⟨"u1", "b1", "t1", 0, BorrowPhase.ready⟩, ⟨"u2", "b1", "t2", 0, BorrowPhase.ready⟩]
        [0, 1, 0, 1]).1.books.map (fun b => b.availableCopies)
      = [-1]) := by
  exact ⟨by decide, by decide⟩

theorem alookup_bump_same (k : String) (m : List (String × Nat)) :
    alookup k (bump k m) = alookup k m + 1 := by
  induction m with
  | nil => simp [bump, alookup]
  | cons p rest ih =>
    obtain ⟨q, v⟩ := p
    by_cases hq : q = k
    · simp [bump, alookup, hq]
    · simp [bump, alookup, hq, ih]

theorem alookup_bump_ne (k q : String) (hne : q ≠ k) (m : List (String × Nat)) :
    alookup k (bump q m) = alookup k m := by
  induction m with
  | nil => simp [bump, alookup, hne]
  | cons p rest ih =>
    obtain ⟨q', v⟩ := p
    by_cases hq : q' = q
    · subst hq
      simp [bump, alookup, hne]
    · by_cases hk : q' = k
      · simp [bump, alookup, hq, hk, hne.symm]
      · simp [bump, alookup, hq, hk, ih]

/-- The counter for `k` after a tally equals the number of elements
    keyed `k`. -/
theorem alookup_tally (key : α → Option String) (l : List α) (k : String) :
    alookup k (tally key l) = (l.filter (fun a => key a = some k)).length := by
  suffices h : ∀ m : List (String × Nat),
      alookup k (l.foldl (fun m a => match key a with | some q => bump q m | none => m) m)
        = alookup k m + (l.filter (fun a => key a = some k)).length by
    simpa [tally, alookup] using h []
  induction l with
  | nil => intro m; simp
  | cons a rest ih =>
    intro m
    simp only [List.foldl_cons, List.filter_cons]
    cases hk : key a with
    | none =>
      simp only [hk]
      have hd : decide ((none : Option String) = some k) = false := by simp
      simp only [hd, Bool.false_eq_true, if_false]
      exact ih m
    | some q =>
      simp only [hk]
      by_cases hq : q = k
      · rw [hq]
        rw [ih (bump k m), alookup_bump_same]
        simp
        omega
      · rw [ih (bump q m), alookup_bump_ne k q hq]
        have hd : decide ((some q : Option String) = some k) = false := by simp [hq]
        simp only [hd, Bool.false_eq_true, if_false]

/-- Under invariant I4 (`fineAmount > 0` only on closed transactions),
    the source's late count agrees with the specification's count of
    closed fined transactions. -/
theorem alookup_userLateCounts_eq_closedFinedCount (txns : List Txn) (uid : String)
    (hI4 : ∀ t ∈ txns, 0 < t.fineAmount → t.returnDate ≠ none) :
    alookup uid (userLateCounts txns) = closedFinedCount txns uid := by
  rw [userLateCounts, alookup_tally, closedFinedCount]
  congr 1
  apply List.filter_congr
  intro t ht
  by_cases hf : 0 < t.fineAmount
  · have hsome : t.returnDate.isSome = true := by
      cases hcase : t.returnDate with
      | none => exact absurd hcase (hI4 t ht hf)
      | some v => rfl
    simp [hf, hsome]
  · simp [hf]

/-- Membership of an id in the computed defaulter-id set, in terms of
    the late-count threshold. -/
theorem defaulterIds_contains_iff (users : List Usr) (txns : List Txn) (uid : String) :
    (((defaultersReport users txns).map (fun p => p.1.id)).contains uid = true)
      ↔ (MIN_LATE_COUNT_FOR_DEFAULTER ≤ alookup uid (userLateCounts txns)
          ∧ ∃ v ∈ users, v.id = uid) := by
  rw [List.elem_iff]
  constructor
  · intro hmem
    obtain ⟨p, hp, hpid⟩ := List.mem_map.mp hmem
    rw [defaultersReport, List.mem_mergeSort] at hp
    obtain ⟨v, hv, hveq⟩ := List.mem_map.mp hp
    obtain ⟨hvu, hvcond⟩ := List.mem_filter.mp hv
    have hvid : v.id = uid := by
      rw [← hpid, ← hveq]
    refine ⟨?_, v, hvu, hvid⟩
    have := of_decide_eq_true hvcond
    rwa [hvid] at this
  · rintro ⟨hth, v, hvu, rfl⟩
    have hv : v ∈ users.filter
        (fun u => decide (MIN_LATE_COUNT_FOR_DEFAULTER ≤ alookup u.id (userLateCounts txns))) :=
      List.mem_filter.mpr ⟨hvu, decide_eq_true hth⟩
    have hp : (v, alookup v.id (userLateCounts txns)) ∈ defaultersReport users txns := by
      rw [defaultersReport, List.mem_mergeSort]
      exact List.mem_map_of_mem _ hv
    exact List.mem_map_of_mem (fun p => p.1.id) hp

/-- Claim C7: after a defaulter recomputation pass and under invariant
    I4 (positive fines only on closed transactions, which is how the
    engine writes fines), every user's stored `isDefaulter` flag is true
    exactly when that user has at least two closed transactions with a
    positive fine.  Instantiating the log twice shows the convergence:
    two qualifying transactions flag the user, one qualifying
    transaction clears the flag on the next pass. -/
theorem defaulter_flag_iff_two_closed_fined (users : List Usr) (txns : List Txn)
    (hI4 : ∀ t ∈ txns, 0 < t.fineAmount → t.returnDate ≠ none) :
    ∀ u ∈ updateDefaulterStatus users txns,
      (u.isDefaulter = true ↔ 2 ≤ closedFinedCount txns u.id) := by
  intro u hu
  have hcnt : ∀ uid, alookup uid (userLateCounts txns) = closedFinedCount txns uid :=
    fun uid => alookup_userLateCounts_eq_closedFinedCount txns uid hI4
  rw [updateDefaulterStatus] at hu
  by_cases hguard : 0 < (defaultersReport users txns).length
      ∨ users.any (fun u => u.isDefaulter) = true
  · rw [if_pos hguard] at hu
    obtain ⟨u₀, hu₀, rfl⟩ := List.mem_map.mp hu
    set isCur := ((defaultersReport users txns).map (fun p => p.1.id)).contains u₀.id with hisCur
    have hflag : (if u₀.isDefaulter ≠ isCur then { u₀ with isDefaulter := isCur } else u₀).isDefaulter
        = isCur := by
      by_cases hd : u₀.isDefaulter ≠ isCur
      · rw [if_pos hd]
      · rw [if_neg hd]
        exact not_ne_iff.mp hd
    have hid : (if u₀.isDefaulter ≠ isCur then { u₀ with isDefaulter := isCur } else u₀).id
        = u₀.id := by
      by_cases hd : u₀.isDefaulter ≠ isCur
      · rw [if_pos hd]
      · rw [if_neg hd]
    rw [hflag, hid]
    rw [show isCur = ((defaultersReport users txns).map (fun p => p.1.id)).contains u₀.id
      from hisCur]
    constructor
    · intro hc
      have h5 := (defaulterIds_contains_iff users txns u₀.id).mp hc
      have h6 := h5.1
      rwa [hcnt u₀.id] at h6
    · intro hc
      apply (defaulterIds_contains_iff users txns u₀.id).mpr
      refine ⟨?_, u₀, hu₀, rfl⟩
      rwa [hcnt u₀.id]
  · rw [if_neg hguard] at hu
    push_neg at hguard
    obtain ⟨hlen, hany⟩ := hguard
    have hflagfalse : u.isDefaulter = false := by
      have h7 : users.any (fun u => u.isDefaulter) = false := by
        cases hcase : users.any (fun u => u.isDefaulter) with
        | false => rfl
        | true => exact absurd hcase hany
      exact Bool.eq_false_iff.mpr
        (fun habs => (List.any_eq_false.mp h7) u hu (by simp [habs]))
    have hreport : defaultersReport users txns = [] := by
      have h8 : (defaultersReport users txns).length = 0 := by omega
      exact List.length_eq_zero.mp h8
    have hfilter : users.filter
        (fun v => decide (MIN_LATE_COUNT_FOR_DEFAULTER ≤ alookup v.id (userLateCounts txns)))
          = [] := by
      have h9 := congrArg List.length hreport
      rw [defaultersReport, List.length_mergeSort, List.length_map] at h9
      exact List.length_eq_zero.mp h9
    have hnot : ¬ (2 ≤ alookup u.id (userLateCounts txns)) := by
      intro habs
      have : u ∈ users.filter
          (fun v => decide (MIN_LATE_COUNT_FOR_DEFAULTER ≤ alookup v.id (userLateCounts txns))) :=
        List.mem_filter.mpr ⟨hu, decide_eq_true habs⟩
      rw [hfilter] at this
      exact absurd this (List.not_mem_nil u)
    rw [hflagfalse]
    constructor
    · intro habs
      exact absurd habs (by simp)
    · intro hc
      exact absurd hc (by rwa [hcnt u.id] at hnot)

/-- Witness for C7: a user with two closed fined transactions is
    flagged; with the log corrected to a single fined transaction the
    next pass clears the flag. -/
theorem defaulter_flag_iff_two_closed_fined_witness :
    (∀ u ∈ updateDefaulterStatus [⟨"u1", "N", Role.Student, false⟩]
        [⟨"t1", "b1", "u1", 0, 1, some 9, 1⟩, ⟨"t2", "b1", "u1", 0, 1, some 9, 1⟩],
      (u.isDefaulter = true
        ↔ 2 ≤ closedFinedCount
            [⟨"t1", "b1", "u1", 0, 1, some 9, 1⟩, ⟨"t2", "b1", "u1", 0, 1, some 9, 1⟩] u.id)) ∧
    (∀ u ∈ updateDefaulterStatus [⟨"u1", "N", Role.Student, true⟩]
        [⟨"t1", "b1", "u1", 0, 1, some 9, 1⟩],
      (u.isDefaulter = true
        ↔ 2 ≤ closedFinedCount [⟨"t1", "b1", "u1", 0, 1, some 9, 1⟩] u.id)) :=
  ⟨defaulter_flag_iff_two_closed_fined _ _ (by decide),
   defaulter_flag_iff_two_closed_fined _ _ (by decide)⟩

theorem mem_keys_bump {q k : String} (m : List (String × Nat)) :
    q ∈ (bump k m).map Prod.fst ↔ (q = k ∨ q ∈ m.map Prod.fst) := by
  induction m with
  | nil => simp [bump]
  | cons p rest ih =>
    obtain ⟨q', v⟩ := p
    by_cases hq : q' = k
    · subst hq
      simp [bump]
    · simp [bump, hq, ih]
      tauto

theorem keysNodup_bump (k : String) (m : List (String × Nat))
    (h : (m.map Prod.fst).Nodup) : ((bump k m).map Prod.fst).Nodup := by
  induction m with
  | nil => simp [bump]
  | cons p rest ih =>
    obtain ⟨q', v⟩ := p
    rw [List.map_cons, List.nodup_cons] at h
    by_cases hq : q' = k
    · subst hq
      simp only [bump]
      rw [if_pos trivial]
      simp only [List.map_cons, List.nodup_cons]
      exact ⟨h.1, h.2⟩
    · simp only [bump, if_neg hq, List.map_cons, List.nodup_cons]
      refine ⟨?_, ih h.2⟩
      intro habs
      rcases (mem_keys_bump rest).mp habs with heq | hmem
      · exact hq heq
      · exact h.1 hmem

theorem keysNodup_tally (key : α → Option String) (l : List α) :
    ((tally key l).map Prod.fst).Nodup := by
  suffices h : ∀ m : List (String × Nat), (m.map Prod.fst).Nodup →
      ((List.foldl (fun m a => match key a with | some q => bump q m | none => m) m l).map
        Prod.fst).Nodup by
    exact h [] (by simp)
  induction l with
  | nil => intro m hm; simpa using hm
  | cons a rest ih =>
    intro m hm
    rw [List.foldl_cons]
    cases hk : key a with
    | none => simpa [hk] using ih m hm
    | some q =>
      simp only [hk]
      exact ih (bump q m) (keysNodup_bump q m hm)

theorem alookup_of_mem {m : List (String × Nat)} (hnd : (m.map Prod.fst).Nodup)
    {k : String} {v : Nat} (h : (k, v) ∈ m) : alookup k m = v := by
  induction m with
  | nil => exact absurd h (List.not_mem_nil _)
  | cons p rest ih =>
    obtain ⟨q, w⟩ := p
    rw [List.map_cons, List.nodup_cons] at hnd
    rcases List.mem_cons.mp h with heq | hmem
    · obtain ⟨rfl, rfl⟩ := Prod.mk.injEq .. ▸ And.intro (congrArg Prod.fst heq)
        (congrArg Prod.snd heq)
      simp [alookup]
    · by_cases hq : q = k
      · subst hq
        exact absurd (List.mem_map_of_mem Prod.fst hmem) hnd.1
      · simp only [alookup, if_neg hq]
        exact ih hnd.2 hmem

theorem mem_keys_tally (key : α → Option String) (l : List α) (k : String) :
    k ∈ (tally key l).map Prod.fst ↔ ∃ a ∈ l, key a = some k := by
  suffices h : ∀ m : List (String × Nat),
      (k ∈ (List.foldl (fun m a => match key a with | some q => bump q m | none => m) m l).map
          Prod.fst
        ↔ k ∈ m.map Prod.fst ∨ ∃ a ∈ l, key a = some k) by
    have h0 := h []
    simpa [tally] using h0
  induction l with
  | nil => intro m; simp
  | cons a rest ih =>
    intro m
    rw [List.foldl_cons]
    cases hk : key a with
    | none =>
      simp only [hk]
      rw [ih m]
      constructor
      · rintro (hm | ⟨b, hb, hbk⟩)
        · exact Or.inl hm
        · exact Or.inr ⟨b, List.mem_cons_of_mem _ hb, hbk⟩
      · rintro (hm | ⟨b, hb, hbk⟩)
        · exact Or.inl hm
        · rcases List.mem_cons.mp hb with rfl | hb
          · rw [hk] at hbk
            exact absurd hbk (by simp)
          · exact Or.inr ⟨b, hb, hbk⟩
    | some q =>
      simp only [hk]
      rw [ih (bump q m)]
      constructor
      · rintro (hm | ⟨b, hb, hbk⟩)
        · rcases (mem_keys_bump m).mp hm with rfl | hm
          · exact Or.inr ⟨a, List.mem_cons_self _ _, hk⟩
          · exact Or.inl hm
        · exact Or.inr ⟨b, List.mem_cons_of_mem _ hb, hbk⟩
      · rintro (hm | ⟨b, hb, hbk⟩)
        · exact Or.inl ((mem_keys_bump m).mpr (Or.inr hm))
        · rcases List.mem_cons.mp hb with rfl | hb
          · rw [hk] at hbk
            have hbq : k = q := by
              have := Option.some.injEq .. ▸ hbk
              simpa using hbk.symm
            exact Or.inl ((mem_keys_bump m).mpr (Or.inl hbq))
          · exact Or.inr ⟨b, hb, hbk⟩

/-- The count-descending sort really sorts descending by count. -/
theorem sortByCountDesc_sorted (m : List (String × Nat)) :
    List.Pairwise (fun a b : String × Nat => b.2 ≤ a.2) (sortByCountDesc m) := by
  have htrans : ∀ a b c : String × Nat,
      (fun a b : String × Nat => decide (b.2 ≤ a.2)) a b = true →
      (fun a b : String × Nat => decide (b.2 ≤ a.2)) b c = true →
      (fun a b : String × Nat => decide (b.2 ≤ a.2)) a c = true := by
    intro a b c h1 h2
    simp only [decide_eq_true_eq] at h1 h2 ⊢
    omega
  have htotal : ∀ a b : String × Nat,
      ((fun a b : String × Nat => decide (b.2 ≤ a.2)) a b
        || (fun a b : String × Nat => decide (b.2 ≤ a.2)) b a) = true := by
    intro a b
    simp only [Bool.or_eq_true, decide_eq_true_eq]
    omega
  have h := List.sorted_mergeSort htrans htotal m
  exact h.imp (by intro a b hab; simpa using hab)

/-- The full characterisation of one by-dimension report: it is sorted
    descending by count, every entry carries exactly the number of
    transactions whose referenced book exists and has that attribute
    value, and an attribute value appears exactly when some transaction
    contributes to it. -/
theorem dimReport_spec (books : List Book) (txns : List Txn) (key : Book → String) :
    List.Pairwise (fun a b : String × Nat => b.2 ≤ a.2) (dimReport books txns key) ∧
    (∀ kc ∈ dimReport books txns key, kc.2 = dimCount books txns key kc.1) ∧
    (∀ k : String,
      (∃ c, (k, c) ∈ dimReport books txns key) ↔ 0 < dimCount books txns key k) := by
  refine ⟨sortByCountDesc_sorted _, ?_, ?_⟩
  · intro kc hkc
    rw [dimReport, sortByCountDesc, List.mem_mergeSort] at hkc
    have hmem : (kc.1, kc.2)
        ∈ tally (fun t => (books.find? (fun b => b.id = t.bookId)).map key) txns := by
      rw [Prod.mk.eta]
      exact hkc
    have := alookup_of_mem (keysNodup_tally _ _) hmem
    rw [alookup_tally] at this
    exact this.symm
  · intro k
    constructor
    · rintro ⟨c, hc⟩
      rw [dimReport, sortByCountDesc, List.mem_mergeSort] at hc
      have hkey : k ∈ (tally (fun t => (books.find? (fun b => b.id = t.bookId)).map key)
          txns).map Prod.fst := by
        have := List.mem_map_of_mem Prod.fst hc
        simpa using this
      obtain ⟨a, ha, hak⟩ := (mem_keys_tally _ _ _).mp hkey
      have : a ∈ txns.filter
          (fun t => (books.find? (fun b => b.id = t.bookId)).map key = some k) :=
        List.mem_filter.mpr ⟨ha, by simp [hak]⟩
      exact List.length_pos_of_mem this
    · intro hpos
      obtain ⟨a, ha⟩ := List.exists_mem_of_length_pos hpos
      obtain ⟨hat, hak⟩ := List.mem_filter.mp ha
      have hkey : k ∈ (tally (fun t => (books.find? (fun b => b.id = t.bookId)).map key)
          txns).map Prod.fst :=
        (mem_keys_tally _ _ _).mpr ⟨a, hat, by simpa using hak⟩
      obtain ⟨p, hp, hpk⟩ := List.mem_map.mp hkey
      refine ⟨p.2, ?_⟩
      rw [dimReport, sortByCountDesc, List.mem_mergeSort]
      rw [← hpk, Prod.mk.eta]
      exact hp

/-- Appending a transaction that the tally's key function skips leaves
    the tally unchanged. -/
theorem tally_append_skip (key : α → Option String) (l : List α) (a : α)
    (h : key a = none) : tally key (l ++ [a]) = tally key l := by
  simp [tally, List.foldl_append, h]

/-- A transaction whose book is dangling contributes to none of the
    three by-dimension reports. -/
theorem bookReports_exclude_dangling (books : List Book) (txns : List Txn) (t : Txn)
    (h : books.find? (fun b => b.id = t.bookId) = none) :
    bookReports books (txns ++ [t]) = bookReports books txns := by
  have hkey : ∀ key : Book → String,
      dimReport books (txns ++ [t]) key = dimReport books txns key := by
    intro key
    rw [dimReport, dimReport, tally_append_skip]
    simp [h]
  rw [bookReports, bookReports, hkey, hkey, hkey]

/-- A transaction whose user is dangling contributes nothing to the
    monthly usage report. -/
theorem monthlyUsageReport_exclude_dangling (users : List Usr) (txns : List Txn) (t : Txn)
    (h : users.find? (fun u => u.id = t.userId) = none) :
    monthlyUsageReport users (txns ++ [t]) = monthlyUsageReport users txns := by
  rw [monthlyUsageReport, monthlyUsageReport]
  have husage : monthlyUsage users (txns ++ [t]) = monthlyUsage users txns := by
    simp [monthlyUsage, List.foldl_append, h]
  rw [husage]

/-- A dangling-user transaction leaves every live user's late count
    unchanged. -/
theorem alookup_userLateCounts_append_dangling (txns : List Txn) (t : Txn) (uid : String)
    (hne : uid ≠ t.userId) :
    alookup uid (userLateCounts (txns ++ [t])) = alookup uid (userLateCounts txns) := by
  rw [userLateCounts, userLateCounts, alookup_tally, alookup_tally, List.filter_append]
  have hnil : List.filter
      (fun a => decide ((if 0 < a.fineAmount then some a.userId else none) = some uid)) [t]
        = [] := by
    simp only [List.filter_cons, List.filter_nil]
    by_cases hf : 0 < t.fineAmount
    · have h2 : ¬ t.userId = uid := fun heq => hne heq.symm
      simp [hf, h2]
    · simp [hf]
  rw [hnil, List.append_nil]

/-- A dangling-user transaction changes neither the defaulters view nor
    the reconciliation pass over the stored flags. -/
theorem defaulters_exclude_dangling (users : List Usr) (txns : List Txn) (t : Txn)
    (h : users.find? (fun u => u.id = t.userId) = none) :
    defaultersReport users (txns ++ [t]) = defaultersReport users txns ∧
    updateDefaulterStatus users (txns ++ [t]) = updateDefaulterStatus users txns := by
  have hne : ∀ u ∈ users, u.id ≠ t.userId := by
    intro u hu
    have := List.find?_eq_none.mp h u hu
    simpa using this
  have hrep : defaultersReport users (txns ++ [t]) = defaultersReport users txns := by
    rw [defaultersReport, defaultersReport]
    have hfil : users.filter
        (fun u => decide (MIN_LATE_COUNT_FOR_DEFAULTER
          ≤ alookup u.id (userLateCounts (txns ++ [t]))))
        = users.filter
        (fun u => decide (MIN_LATE_COUNT_FOR_DEFAULTER
          ≤ alookup u.id (userLateCounts txns))) := by
      apply List.filter_congr
      intro u hu
      rw [alookup_userLateCounts_append_dangling txns t u.id (hne u hu)]
    rw [hfil]
    have hmap : ∀ v ∈ users.filter
        (fun u => decide (MIN_LATE_COUNT_FOR_DEFAULTER
          ≤ alookup u.id (userLateCounts txns))),
        (v, alookup v.id (userLateCounts (txns ++ [t])))
          = (v, alookup v.id (userLateCounts txns)) := by
      intro v hv
      rw [alookup_userLateCounts_append_dangling txns t v.id
        (hne v (List.mem_filter.mp hv).1)]
    rw [List.map_congr_left hmap]
  refine ⟨hrep, ?_⟩
  rw [updateDefaulterStatus, updateDefaulterStatus, hrep]

/-- Claim C9: the by-dimension usage views count transactions grouped by
    the referenced book's author, publisher and category, sorted
    descending by count; and every report — by-dimension, monthly,
    defaulters — excludes a transaction whose referenced book or user is
    absent from the affected aggregate rather than failing. -/
theorem reports_group_sort_and_tolerate_dangling
    (books : List Book) (users : List Usr) (txns : List Txn) (t : Txn) :
    (List.Pairwise (fun a b : String × Nat => b.2 ≤ a.2) (bookReports books txns).author ∧
     List.Pairwise (fun a b : String × Nat => b.2 ≤ a.2) (bookReports books txns).publisher ∧
     List.Pairwise (fun a b : String × Nat => b.2 ≤ a.2) (bookReports books txns).category) ∧
    ((∀ kc ∈ (bookReports books txns).author,
        kc.2 = dimCount books txns (fun b => b.author) kc.1) ∧
     (∀ kc ∈ (bookReports books txns).publisher,
        kc.2 = dimCount books txns (fun b => b.publisher) kc.1) ∧
     (∀ kc ∈ (bookReports books txns).category,
        kc.2 = dimCount books txns (fun b => b.category) kc.1)) ∧
    ((∀ k : String, (∃ c, (k, c) ∈ (bookReports books txns).author)
        ↔ 0 < dimCount books txns (fun b => b.author) k) ∧
     (∀ k : String, (∃ c, (k, c) ∈ (bookReports books txns).publisher)
        ↔ 0 < dimCount books txns (fun b => b.publisher) k) ∧
     (∀ k : String, (∃ c, (k, c) ∈ (bookReports books txns).category)
        ↔ 0 < dimCount books txns (fun b => b.category) k)) ∧
    (books.find? (fun b => b.id = t.bookId) = none →
      bookReports books (txns ++ [t]) = bookReports books txns) ∧
    (users.find? (fun u => u.id = t.userId) = none →
      monthlyUsageReport users (txns ++ [t]) = monthlyUsageReport users txns ∧
      defaultersReport users (txns ++ [t]) = defaultersReport users txns ∧
      updateDefaulterStatus users (txns ++ [t]) = updateDefaulterStatus users txns) := by
  obtain ⟨hsA, heA, hpA⟩ := dimReport_spec books txns (fun b => b.author)
  obtain ⟨hsP, heP, hpP⟩ := dimReport_spec books txns (fun b => b.publisher)
  obtain ⟨hsC, heC, hpC⟩ := dimReport_spec books txns (fun b => b.category)
  exact ⟨⟨hsA, hsP, hsC⟩, ⟨heA, heP, heC⟩, ⟨hpA, hpP, hpC⟩,
    fun h => bookReports_exclude_dangling books txns t h,
    fun h => ⟨monthlyUsageReport_exclude_dangling users txns t h,
      (defaulters_exclude_dangling users txns t h).1,
      (defaulters_exclude_dangling users txns t h).2⟩⟩

/-- Witness for C9: a dangling transaction (unknown book and user ids)
    is excluded from all reports over a concrete store. -/
theorem reports_tolerate_dangling_witness :
    (bookReports [⟨"b1", "T", "A", "P", "C", 1, 1⟩]
        ([] ++ [⟨"tx", "bX", "uX", 0, 1, none, 0⟩])
      = bookReports [⟨"b1", "T", "A", "P", "C", 1, 1⟩] []) ∧
    (monthlyUsageReport [⟨"u1", "N", Role.Student, false⟩]
        ([] ++ [⟨"tx", "bX", "uX", 0, 1, none, 0⟩])
      = monthlyUsageReport [⟨"u1", "N", Role.Student, false⟩] []) ∧
    (updateDefaulterStatus [⟨"u1", "N", Role.Student, false⟩]
        ([] ++ [⟨"tx", "bX", "uX", 0, 1, none, 0⟩])
      = updateDefaulterStatus [⟨"u1", "N", Role.Student, false⟩] []) := by
  have h := reports_group_sort_and_tolerate_dangling
    [⟨"b1", "T", "A", "P", "C", 1, 1⟩] [⟨"u1", "N", Role.Student, false⟩] []
    ⟨"tx", "bX", "uX", 0, 1, none, 0⟩
  exact ⟨h.2.2.2.1 (by decide), (h.2.2.2.2 (by decide)).1, (h.2.2.2.2 (by decide)).2.2⟩

/-- A member of an updated list is an old member or the image of one. -/
theorem mem_updateFirst {p : α → Bool} {f : α → α} {l : List α} {a : α}
    (h : a ∈ updateFirst p f l) : a ∈ l ∨ ∃ x ∈ l, a = f x := by
  induction l with
  | nil => exact absurd h (List.not_mem_nil _)
  | cons b bs ih =>
    rw [updateFirst] at h
    by_cases hb : p b = true
    · rw [if_pos hb] at h
      rcases List.mem_cons.mp h with rfl | hm
      · exact Or.inr ⟨b, List.mem_cons_self _ _, rfl⟩
      · exact Or.inl (List.mem_cons_of_mem _ hm)
    · rw [if_neg hb] at h
      rcases List.mem_cons.mp h with rfl | hm
      · exact Or.inl (List.mem_cons_self _ _)
      · rcases ih hm with h1 | ⟨x, hx, rfl⟩
        · exact Or.inl (List.mem_cons_of_mem _ h1)
        · exact Or.inr ⟨x, List.mem_cons_of_mem _ hx, rfl⟩

/-- The engine maintains I4: borrows insert zero-fine open transactions
    and returns only ever write a fine together with a return date, so
    every sequence of circulation operations preserves I4.  This is what
    justifies assuming I4 about the transaction log that the defaulter
    classifier reads. -/
theorem runOps_preserves_I4 (ops : List Op) (s : LibState) (h4 : I4 s) :
    I4 (runOps s ops) := by
  suffices hstep : ∀ (s : LibState) (op : Op), I4 s → I4 (applyOp s op) by
    induction ops generalizing s with
    | nil => exact h4
    | cons op ops ih => exact ih (applyOp s op) (hstep s op h4)
  intro s op h4
  cases op with
  | borrow u k nid now =>
    by_cases hg : u = "" ∨ k = ""
    · simpa [applyOp, handleBorrow, hg] using h4
    · cases hfind : s.books.find? (fun b => b.id = k) with
      | none => simpa [applyOp, handleBorrow, hg, hfind] using h4
      | some b =>
        by_cases hav : b.availableCopies < 1
        · simpa [applyOp, handleBorrow, hg, hfind, hav] using h4
        · intro t ht
          have hT : (applyOp s (.borrow u k nid now)).transactions
              = s.transactions ++ [newBorrowTxn u k nid now] := by
            simp [applyOp, handleBorrow, hg, hfind, hav]
          rw [hT] at ht
          rcases List.mem_append.mp ht with hm | hm
          · exact h4 t hm
          · rcases List.mem_cons.mp hm with rfl | hm
            · intro habs
              exact absurd habs (by simp [newBorrowTxn])
            · exact absurd hm (List.not_mem_nil t)
  | ret tid now =>
    cases hfind : s.transactions.find? (fun t => t.id = tid) with
    | none => simpa [applyOp, hfind] using h4
    | some txn =>
      by_cases hrd : txn.returnDate.isSome
      · simpa [applyOp, hfind, handleReturn, hrd] using h4
      · cases hfb : s.books.find? (fun b => b.id = txn.bookId) with
        | none => simpa [applyOp, hfind, handleReturn, hrd, hfb] using h4
        | some b =>
          intro t ht
          have hT : (applyOp s (.ret tid now)).transactions
              = updateFirst (fun t => t.id = txn.id)
                  (closeTxn now (calculateFine (some txn.dueDate) (some now)))
                  s.transactions := by
            simp [applyOp, hfind, handleReturn, hrd, hfb]
          rw [hT] at ht
          rcases mem_updateFirst ht with hm | ⟨x, _, rfl⟩
          · exact h4 t hm
          · intro _ habs
            exact absurd habs (by simp [closeTxn])

end LMS
